import Mathlib

/-!
Verification of the cosmos-fee-indexer repository.

This file gives a shallow embedding, in Lean, of the parts of the
TypeScript source that the verified properties are about:

* src/utils/fee-parser.ts   — the fee extraction algorithm (pure);
* src/services/cosmos-rpc.ts — the endpoint selection and failover state
  machine of the RPC client (the network itself is an oracle);
* src/services/indexer.ts   — the batch-windowed indexing loop, the
  per-block retry logic, and the commit sequence against the database
  models of src/db/models.ts;
* src/api/server.ts         — the validation logic of the /fees route.

JavaScript numbers are modelled as Int (heights, codes) and as Rat for
fee amounts produced by parseFloat; every value exercised by the
theorems below is an integer far below 2 to the 53, where IEEE-754
doubles are exact, so the rational model agrees with the source.
Strings are Lean String; JS Map iteration order (insertion order) is
modelled with an association list.
-/

namespace CosmosFeeIndexer

/-! ## Data model of block execution results (src/types/cosmos.ts)

The fields the fee extractor reads.  Fields that may be absent in the
JSON payload (txs_results, events, attributes) are Options, matching
the null checks in the source. -/

structure EventAttribute where
  key : String
  value : String
deriving DecidableEq

structure TxEvent where
  attributes : Option (List EventAttribute)
deriving DecidableEq

structure TxResult where
  code : Int
  events : Option (List TxEvent)
deriving DecidableEq

structure BlockResult where
  txs_results : Option (List TxResult)
deriving DecidableEq

/-! ## Fee parsing (src/utils/fee-parser.ts) -/

/-- Numeric value of a list of decimal digit characters, most
significant first: the value parseFloat assigns to the integral part. -/
def natOfDigits (cs : List Char) : Nat :=
  cs.foldl (fun a c => a * 10 + (c.toNat - 48)) 0

/-- Length of the longest prefix of decimal digits: what the greedy
regex atom matching one-or-more digits consumes. -/
def digitPrefixLen : List Char → Nat
  | [] => 0
  | c :: cs => if c.isDigit then digitPrefixLen cs + 1 else 0

/-- The JS regex match amountStr.match of the pattern
anchored-digits-optional-fraction-then-rest used in parseFeeValue:
group 1 is the numeric part (digits, optionally a dot and digits),
group 2 is the non-empty remainder (the denom).  Backtracking
semantics of the JS engine: the outer digit atom is greedy, then the
optional fraction group (inner digit atom greedy, shrinking on
failure, then the whole group dropped), then the outer digit atom
shrinks; the final atom needs at least one character. -/
def feeValueMatch (cs : List Char) : Option (List Char × List Char) :=
  let n := digitPrefixLen cs
  if n = 0 then none
  else
    match cs.drop n with
    | [] =>
        -- all digits: the outer digit atom backtracks by one so the
        -- final atom can take the last digit
        if 2 ≤ n then some (cs.take (n - 1), cs.drop (n - 1)) else none
    | c :: r2 =>
        if c = '.' then
          let k := digitPrefixLen r2
          let j := if k < r2.length then k else k - 1
          if 1 ≤ j then
            some (cs.take (n + 1 + j), r2.drop j)
          else
            -- fraction group cannot leave a remainder: group dropped
            some (cs.take n, c :: r2)
        else
          some (cs.take n, c :: r2)

/-- Exact value of parseFloat on a string already known to match the
numeric group of the regex (digits, optionally a dot and digits).
parseFloat returns an IEEE-754 double; it is exact for the integral
values the verified properties exercise. -/
def parseDecimal (cs : List Char) : ℚ :=
  let ip := cs.takeWhile Char.isDigit
  match cs.dropWhile Char.isDigit with
  | '.' :: fp => (natOfDigits ip : ℚ) + (natOfDigits fp : ℚ) / ((10 : ℚ) ^ fp.length)
  | _ => (natOfDigits ip : ℚ)

/-- JS String.prototype.split with separator a comma. -/
def splitComma : List Char → List (List Char)
  | [] => [[]]
  | c :: rest =>
    match splitComma rest with
    | [] => [[]]
    | p :: ps => if c = ',' then [] :: p :: ps else (c :: p) :: ps

/-- JS String.prototype.trim (whitespace stripped from both ends). -/
def trimList (cs : List Char) : List Char :=
  ((cs.dropWhile Char.isWhitespace).reverse.dropWhile Char.isWhitespace).reverse

/-- The accumulator feesByDenom: a JS Map from denom to amount,
iterated in insertion order, modelled as an association list. -/
abbrev FeeMap : Type := List (String × ℚ)

/-- feesByDenom.get(denom) || 0 -/
def feeMapGet (m : FeeMap) (k : String) : ℚ :=
  match m.find? (fun p => p.1 == k) with
  | some p => p.2
  | none => 0

/-- feesByDenom.set(denom, v): update in place if the key exists
(preserving its position), else append — JS Map semantics. -/
def feeMapSet (m : FeeMap) (k : String) (v : ℚ) : FeeMap :=
  if m.any (fun p => p.1 == k) then
    m.map (fun p => if p.1 == k then (k, v) else p)
  else m ++ [(k, v)]

/-- Body of the per-piece loop of parseFeeValue: regex match, then
accumulate when the amount is positive and the denom non-empty. -/
def parseFeePiece (m : FeeMap) (piece : List Char) : FeeMap :=
  match feeValueMatch piece with
  | none => m
  | some (numericPart, denomPart) =>
      let amount := parseDecimal numericPart
      let denom : String := ⟨denomPart⟩
      if 0 < amount ∧ denom ≠ "" then
        feeMapSet m denom (feeMapGet m denom + amount)
      else m

/-- parseFeeValue of src/utils/fee-parser.ts: guard against the empty
value, split on commas, trim each piece, match and accumulate. -/
def parseFeeValue (value : String) (m : FeeMap) : FeeMap :=
  if value = "" then m
  else ((splitComma value.data).map trimList).foldl parseFeePiece m

/-- Decimal digits of a natural number, via repeated division (the
fuel is sufficient since n needs at most n+1 digits). -/
def natToDecimalAux : Nat → Nat → List Char → List Char
  | 0, _, acc => acc
  | fuel + 1, n, acc =>
    let d := Char.ofNat (48 + n % 10)
    if n < 10 then d :: acc
    else natToDecimalAux fuel (n / 10) (d :: acc)

def natToDecimal (n : Nat) : List Char :=
  natToDecimalAux (n + 1) n []

/-- The template interpolation of the amount in extractFeesFromBlock.
JS prints the double; for non-negative integral values (the only ones
the verified properties exercise) that is the plain decimal numeral,
modelled exactly; the non-integral fallback rendering here is a
modelling approximation of JS float printing and is never reached by
any theorem below. -/
def renderAmount (a : ℚ) : String :=
  if a.den = 1 then
    if a.num < 0 then "-" ++ (⟨natToDecimal a.num.natAbs⟩ : String)
    else (⟨natToDecimal a.num.natAbs⟩ : String)
  else (⟨natToDecimal a.num.natAbs⟩ : String) ++ "/" ++ (⟨natToDecimal a.den⟩ : String)

/-- The attribute loop body of extractFeesFromBlock. -/
def accumAttr (m : FeeMap) (attr : EventAttribute) : FeeMap :=
  if attr.key == "fee" || attr.key == "tip" then parseFeeValue attr.value m else m

/-- The event loop body of extractFeesFromBlock. -/
def accumEvent (m : FeeMap) (ev : TxEvent) : FeeMap :=
  (ev.attributes.getD []).foldl accumAttr m

/-- The transaction loop body of extractFeesFromBlock: failed
transactions (non-zero code) are skipped. -/
def accumTx (m : FeeMap) (tx : TxResult) : FeeMap :=
  if tx.code ≠ 0 then m
  else (tx.events.getD []).foldl accumEvent m

/-- extractFeesFromBlock of src/utils/fee-parser.ts: iterate the
transactions of the block accumulating fee and tip attributes by
denom, then render the positive totals in first-seen denom order as a
comma-joined list, or the literal zero string when nothing was found
(or when the block carries no transactions). -/
def extractFeesFromBlock (blockResult : BlockResult) : String :=
  match blockResult.txs_results with
  | none => "0"
  | some txs =>
    if txs.length = 0 then "0"
    else
      let feesByDenom := txs.foldl accumTx []
      let feeStrings := feesByDenom.foldl
        (fun acc p => if 0 < p.2 then acc ++ [renderAmount p.2 ++ p.1] else acc) []
      if 0 < feeStrings.length then String.intercalate "," feeStrings else "0"

/-! ## Helper lemmas about the fee parsing pipeline -/

lemma dropWhile_eq_self_of_none {p : Char → Bool} :
    ∀ {l : List Char}, (∀ c ∈ l, p c = false) → l.dropWhile p = l
  | [], _ => rfl
  | c :: cs, h => by
    simp [List.dropWhile, h c (by simp)]

lemma trimList_eq_self {cs : List Char}
    (h : ∀ c ∈ cs, c.isWhitespace = false) : trimList cs = cs := by
  unfold trimList
  rw [dropWhile_eq_self_of_none h, dropWhile_eq_self_of_none, List.reverse_reverse]
  intro c hc
  exact h c (List.mem_reverse.mp hc)

lemma splitComma_eq_single {cs : List Char} :
    (∀ c ∈ cs, c ≠ ',') → splitComma cs = [cs] := by
  induction cs with
  | nil => intro _; rfl
  | cons c cs ih =>
    intro h
    have hrec : splitComma cs = [cs] := ih (fun x hx => h x (List.mem_cons_of_mem _ hx))
    show (match splitComma cs with
      | [] => [[]]
      | p :: ps => if c = ',' then [] :: p :: ps else (c :: p) :: ps) = [c :: cs]
    rw [hrec]
    show (if c = ',' then [] :: cs :: [] else (c :: cs) :: []) = [c :: cs]
    rw [if_neg (h c (List.mem_cons_self _ _))]

lemma digitPrefixLen_append {ds l : List Char}
    (hds : ∀ c ∈ ds, c.isDigit = true)
    (hl : ∀ c, l.head? = some c → c.isDigit = false) :
    digitPrefixLen (ds ++ l) = ds.length := by
  induction ds with
  | nil =>
    simp only [List.nil_append, List.length_nil]
    cases l with
    | nil => rfl
    | cons c cs => simp [digitPrefixLen, hl c rfl]
  | cons c cs ih =>
    have hc := hds c (by simp)
    have ih2 := ih (fun x hx => hds x (by simp [hx]))
    simp only [List.cons_append, digitPrefixLen, hc, if_true, List.length_cons,
      List.append_eq]
    omega

lemma char_isDigit_not_whitespace {c : Char}
    (h : c.isDigit = true) : c.isWhitespace = false := by
  by_contra hw
  simp only [Bool.not_eq_false] at hw
  have : ((c = ' ' ∨ c = '\t') ∨ c = '\x0d') ∨ c = '\n' := by
    simpa [Char.isWhitespace] using hw
  rcases this with ((h1 | h1) | h1) | h1 <;> subst h1 <;> simp_all [Char.isDigit]

lemma char_isDigit_not_comma {c : Char}
    (h : c.isDigit = true) : c ≠ ',' := by
  intro h1
  subst h1
  simp [Char.isDigit] at h

lemma feeValueMatch_digits_denom {ds dd : List Char} {d : Char}
    (hne : ds ≠ []) (hds : ∀ c ∈ ds, c.isDigit = true)
    (hd : d.isDigit = false) (hdot : d ≠ '.') :
    feeValueMatch (ds ++ d :: dd) = some (ds, d :: dd) := by
  have hlen : digitPrefixLen (ds ++ d :: dd) = ds.length :=
    digitPrefixLen_append hds (by intro c hc; cases hc; exact hd)
  have hpos : ds.length ≠ 0 := by
    cases ds with
    | nil => exact absurd rfl hne
    | cons a l => simp
  unfold feeValueMatch
  rw [hlen, if_neg hpos, List.drop_left, List.take_left]
  simp [hdot]

lemma parseDecimal_digits {ds : List Char}
    (hds : ∀ c ∈ ds, c.isDigit = true) :
    parseDecimal ds = (natOfDigits ds : ℚ) := by
  unfold parseDecimal
  rw [List.takeWhile_eq_self_iff.mpr hds, List.dropWhile_eq_nil_iff.mpr hds]

lemma parseFeePiece_digits {ds dd : List Char} {d : Char} {m : FeeMap}
    (hne : ds ≠ []) (hds : ∀ c ∈ ds, c.isDigit = true)
    (hd : d.isDigit = false) (hdot : d ≠ '.')
    (hpos : 0 < natOfDigits ds) :
    parseFeePiece m (ds ++ d :: dd)
      = feeMapSet m ⟨d :: dd⟩ (feeMapGet m ⟨d :: dd⟩ + (natOfDigits ds : ℚ)) := by
  unfold parseFeePiece
  rw [feeValueMatch_digits_denom hne hds hd hdot]
  simp only [parseDecimal_digits hds]
  rw [if_pos]
  constructor
  · exact_mod_cast hpos
  · intro h
    have : (d :: dd) = ([] : List Char) := congrArg String.data h
    simp at this

lemma parseFeeValue_single_token {ds dd : List Char} {d : Char} {m : FeeMap}
    (hne : ds ≠ []) (hds : ∀ c ∈ ds, c.isDigit = true)
    (hd : d.isDigit = false) (hdot : d ≠ '.')
    (hdenom : ∀ c ∈ d :: dd, c ≠ ',' ∧ c.isWhitespace = false)
    (hpos : 0 < natOfDigits ds) :
    parseFeeValue ⟨ds ++ d :: dd⟩ m
      = feeMapSet m ⟨d :: dd⟩ (feeMapGet m ⟨d :: dd⟩ + (natOfDigits ds : ℚ)) := by
  have hval : (⟨ds ++ d :: dd⟩ : String) ≠ "" := by
    intro h
    have h2 : ds ++ d :: dd = [] := congrArg String.data h
    simp at h2
  have hnc : ∀ c ∈ ds ++ d :: dd, c ≠ ',' := by
    intro c hc
    rcases List.mem_append.mp hc with h1 | h1
    · exact char_isDigit_not_comma (hds c h1)
    · exact (hdenom c h1).1
  have hnw : ∀ c ∈ ds ++ d :: dd, c.isWhitespace = false := by
    intro c hc
    rcases List.mem_append.mp hc with h1 | h1
    · exact char_isDigit_not_whitespace (hds c h1)
    · exact (hdenom c h1).2
  unfold parseFeeValue
  rw [if_neg hval]
  show ((splitComma (ds ++ d :: dd)).map trimList).foldl parseFeePiece m = _
  rw [splitComma_eq_single hnc]
  simp only [List.map_cons, List.map_nil, trimList_eq_self hnw,
    List.foldl_cons, List.foldl_nil]
  exact parseFeePiece_digits hne hds hd hdot hpos

lemma foldl_accumTx_skipped {txs : List TxResult} {m : FeeMap}
    (h : ∀ tx ∈ txs, tx.code ≠ 0) : txs.foldl accumTx m = m := by
  induction txs generalizing m with
  | nil => rfl
  | cons t ts ih =>
    simp only [List.foldl_cons]
    rw [show accumTx m t = m from by unfold accumTx; rw [if_pos (h t (by simp))]]
    exact ih (fun x hx => h x (by simp [hx]))

/-! ## Claim C6 -/

/-- C6: for every block whose transactions all have a non-zero result
code, and for every block with zero transactions, extractFeesFromBlock
returns the literal zero string of multi-denomination mode: failed
transactions contribute no fee. -/
theorem failed_transactions_contribute_no_fee (br : BlockResult)
    (h : ∀ tx ∈ br.txs_results.getD [], tx.code ≠ 0) :
    extractFeesFromBlock br = "0" := by
  obtain ⟨ts⟩ := br
  cases ts with
  | none => rfl
  | some txs =>
    simp only [Option.getD_some] at h
    show (if txs.length = 0 then "0"
      else
        let feesByDenom := txs.foldl accumTx []
        let feeStrings := feesByDenom.foldl
          (fun acc p => if 0 < p.2 then acc ++ [renderAmount p.2 ++ p.1] else acc) []
        if 0 < feeStrings.length then String.intercalate "," feeStrings else "0") = "0"
    by_cases hl : txs.length = 0
    · rw [if_pos hl]
    · rw [if_neg hl]
      simp only [foldl_accumTx_skipped h, List.foldl_nil, List.length_nil,
        lt_self_iff_false, if_false]

/-- Witness for C6: a one-transaction block whose transaction failed
with code 1 extracts the zero total, and the empty block does too. -/
theorem failed_transactions_contribute_no_fee_witness :
    (∀ tx ∈ (BlockResult.mk (some [⟨1, some [⟨some [⟨"fee", "100uatom"⟩]⟩]⟩])).txs_results.getD [],
        tx.code ≠ 0)
    ∧ extractFeesFromBlock ⟨some [⟨1, some [⟨some [⟨"fee", "100uatom"⟩]⟩]⟩]⟩ = "0"
    ∧ extractFeesFromBlock ⟨some []⟩ = "0" :=
  ⟨by decide,
   failed_transactions_contribute_no_fee _ (by decide),
   failed_transactions_contribute_no_fee _ (by decide)⟩

/-! ## Claim C7 -/

/-- The two-transaction block of the end-to-end fee scenario: one
transaction carrying the comma-joined attribute value of one thousand
plus five hundred uatom, and a second transaction carrying two hundred
uatom. -/
def feeScenarioBlock : BlockResult :=
  ⟨some [⟨0, some [⟨some [⟨"fee", "1000uatom,500uatom"⟩]⟩]⟩,
         ⟨0, some [⟨some [⟨"fee", "200uatom"⟩]⟩]⟩]⟩

/-- C7: a fee attribute value made of a digit string followed by a
denomination (non-empty, not starting with a digit or a dot, free of
commas and whitespace, as Cosmos denominations are) attributes the
full amount to that denomination; the comma-joined value of one
thousand plus five hundred uatom accumulates to fifteen hundred uatom
inside one attribute, and together with a second transaction of two
hundred uatom the block total is seventeen hundred uatom. -/
theorem fee_attribution_and_accumulation :
    (∀ (ds dd : List Char) (d : Char) (m : FeeMap),
        ds ≠ [] → (∀ c ∈ ds, c.isDigit = true) →
        d.isDigit = false → d ≠ '.' →
        (∀ c ∈ d :: dd, c ≠ ',' ∧ c.isWhitespace = false) →
        0 < natOfDigits ds →
        parseFeeValue ⟨ds ++ d :: dd⟩ m
          = feeMapSet m ⟨d :: dd⟩ (feeMapGet m ⟨d :: dd⟩ + (natOfDigits ds : ℚ)))
    ∧ parseFeeValue "1000uatom,500uatom" [] = [("uatom", (1500 : ℚ))]
    ∧ extractFeesFromBlock feeScenarioBlock = "1700uatom" := by
  refine ⟨fun ds dd d m hne hds hd hdot hdenom hpos =>
    parseFeeValue_single_token hne hds hd hdot hdenom hpos, ?_, ?_⟩
  · have e1 : parseFeeValue "1000uatom,500uatom" []
        = parseFeePiece (parseFeePiece [] "1000uatom".data) "500uatom".data := by
      unfold parseFeeValue
      rw [if_neg (by decide)]
      rfl
    have e2 : parseFeePiece ([] : FeeMap) "1000uatom".data
        = [("uatom", (0 : ℚ) + (natOfDigits "1000".data : ℚ))] := by
      show parseFeePiece ([] : FeeMap) ("1000".data ++ 'u' :: "atom".data) = _
      rw [parseFeePiece_digits (by decide) (by decide) (by decide) (by decide) (by decide)]
      rfl
    have e3 : parseFeePiece [("uatom", (0 : ℚ) + (natOfDigits "1000".data : ℚ))] "500uatom".data
        = [("uatom", ((0 : ℚ) + (natOfDigits "1000".data : ℚ)) + (natOfDigits "500".data : ℚ))] := by
      show parseFeePiece _ ("500".data ++ 'u' :: "atom".data) = _
      rw [parseFeePiece_digits (by decide) (by decide) (by decide) (by decide) (by decide)]
      rfl
    rw [e1, e2, e3,
      show ((0 : ℚ) + (natOfDigits "1000".data : ℚ)) + (natOfDigits "500".data : ℚ) = 1500 by
        rw [show natOfDigits "1000".data = 1000 from rfl, show natOfDigits "500".data = 500 from rfl]
        norm_num]
  · have t1 : ((feeScenarioBlock.txs_results.getD []).foldl accumTx [])
        = parseFeeValue "200uatom" (parseFeeValue "1000uatom,500uatom" []) := rfl
    have e1 : parseFeeValue "1000uatom,500uatom" []
        = parseFeePiece (parseFeePiece [] "1000uatom".data) "500uatom".data := by
      unfold parseFeeValue
      rw [if_neg (by decide)]
      rfl
    have e2 : parseFeePiece ([] : FeeMap) "1000uatom".data
        = [("uatom", (0 : ℚ) + (natOfDigits "1000".data : ℚ))] := by
      show parseFeePiece ([] : FeeMap) ("1000".data ++ 'u' :: "atom".data) = _
      rw [parseFeePiece_digits (by decide) (by decide) (by decide) (by decide) (by decide)]
      rfl
    have e3 : parseFeePiece [("uatom", (0 : ℚ) + (natOfDigits "1000".data : ℚ))] "500uatom".data
        = [("uatom", ((0 : ℚ) + (natOfDigits "1000".data : ℚ)) + (natOfDigits "500".data : ℚ))] := by
      show parseFeePiece _ ("500".data ++ 'u' :: "atom".data) = _
      rw [parseFeePiece_digits (by decide) (by decide) (by decide) (by decide) (by decide)]
      rfl
    have e4 : parseFeeValue "200uatom"
          [("uatom", ((0 : ℚ) + (natOfDigits "1000".data : ℚ)) + (natOfDigits "500".data : ℚ))]
        = [("uatom", (((0 : ℚ) + (natOfDigits "1000".data : ℚ)) + (natOfDigits "500".data : ℚ))
            + (natOfDigits "200".data : ℚ))] := by
      show parseFeeValue ⟨"200".data ++ 'u' :: "atom".data⟩ _ = _
      rw [parseFeeValue_single_token (by decide) (by decide) (by decide) (by decide)
        (by decide) (by decide)]
      rfl
    have hq : (((0 : ℚ) + (natOfDigits "1000".data : ℚ)) + (natOfDigits "500".data : ℚ))
          + (natOfDigits "200".data : ℚ) = 1700 := by
      rw [show natOfDigits "1000".data = 1000 from rfl, show natOfDigits "500".data = 500 from rfl,
        show natOfDigits "200".data = 200 from rfl]
      norm_num
    have t2 : ((feeScenarioBlock.txs_results.getD []).foldl accumTx [])
        = [("uatom", (1700 : ℚ))] := by
      rw [t1, e1, e2, e3, e4, hq]
    show (if (2 : Nat) = 0 then "0"
      else
        let feesByDenom := ((feeScenarioBlock.txs_results.getD []).foldl accumTx [])
        let feeStrings := feesByDenom.foldl
          (fun acc p => if 0 < p.2 then acc ++ [renderAmount p.2 ++ p.1] else acc) []
        if 0 < feeStrings.length then String.intercalate "," feeStrings else "0") = "1700uatom"
    rw [if_neg (by decide)]
    simp only [t2]
    rfl

/-- Witness for C7: the general part of the theorem applied to the
concrete token of forty-two uatom on the empty accumulator. -/
theorem fee_attribution_and_accumulation_witness :
    parseFeeValue "42uatom" []
      = feeMapSet [] ⟨'u' :: "atom".data⟩ (feeMapGet [] ⟨'u' :: "atom".data⟩
          + (natOfDigits "42".data : ℚ)) :=
  fee_attribution_and_accumulation.1 "42".data "atom".data 'u' []
    (by decide) (by decide) (by decide) (by decide) (by decide) (by decide)

/-! ## Claim C10 -/

/-- Per-chain configuration (src/types/config.ts).  Optional numeric
fields carry the or-default semantics of the indexer: a configured
zero is falsy in JS and also falls back to the default. -/
structure ChainConfig where
  name : String
  start_height : Int
  rpc_base_url : List String
  denom : String
  batch_size : Option Int
  retry_attempts : Option Nat
  retry_delay_ms : Option Int

/-- The fee computation of CosmosFeeIndexer.processBlock: the source
calls extractFeesFromBlock with the block results and
chainConfig.denom as a second argument, but extractFeesFromBlock
declares a single parameter, so under JS call semantics the extra
argument is dropped. -/
def indexerTotalFees (chainConfig : ChainConfig) (blockResults : BlockResult) : String :=
  extractFeesFromBlock blockResults

/-- C10: the fee total the indexer stores is independent of the
configured target denomination — any two configurations differing only
in denom (indeed any two configurations at all) produce the identical
total_fees string, which is always the multi-denomination mapping form
computed by extractFeesFromBlock. -/
theorem total_fees_independent_of_configured_denom :
    ∀ (cfg : ChainConfig) (d : String) (br : BlockResult),
      indexerTotalFees { cfg with denom := d } br = extractFeesFromBlock br
      ∧ ∀ cfg2 : ChainConfig, indexerTotalFees cfg br = indexerTotalFees cfg2 br :=
  fun _ _ _ => ⟨rfl, fun _ => rfl⟩

/-! ## RPC client endpoint selection (src/services/cosmos-rpc.ts)

The network is an oracle mapping an endpoint index to the outcome of
one request against it; the embedding keeps the selection state
(rpcUrls, currentClientIndex, workingRpcIndex) and the control flow of
the retry loops of getBlockResults and getLatestBlockHeight, and
additionally records which endpoints were queried, and how many times
rotateClient ran, so the theorems can speak about them. -/

structure RpcClientState where
  rpcUrls : List String
  currentClientIndex : Nat
  workingRpcIndex : Option Nat
deriving DecidableEq

/-- getCurrentUrl picks the working index when pinned, else the
round-robin index. -/
def selectedIndex (s : RpcClientState) : Nat :=
  match s.workingRpcIndex with
  | some i => i
  | none => s.currentClientIndex

/-- rotateClient: unpin the working index and advance the round-robin
index to the successor (modulo the endpoint count) of the index that
just failed. -/
def rotateClient (s : RpcClientState) : RpcClientState :=
  { s with workingRpcIndex := none,
           currentClientIndex := (selectedIndex s + 1) % s.rpcUrls.length }

/-- markRpcAsWorking: pin the current round-robin index, only when
nothing is pinned yet. -/
def markRpcAsWorking (s : RpcClientState) : RpcClientState :=
  match s.workingRpcIndex with
  | some _ => s
  | none => { s with workingRpcIndex := some s.currentClientIndex }

/-- Outcome of one HTTP attempt against one endpoint, after the error
classification of the catch blocks: success; connection refused or
timeout (the two codes that continue explicitly); an HTTP 404 whose
thrown message contains the not-found text; anything else (other HTTP
status, RPC error payload, missing result). -/
inductive AttemptOutcome
  | ok
  | connRefused
  | timedOut
  | httpNotFound
  | otherError
deriving DecidableEq

/-- How one whole RPC call ended. -/
inductive CallOutcome
  | success
  | notFoundFailure
  | exhaustedFailure
deriving DecidableEq

structure RpcCallResult where
  outcome : CallOutcome
  state : RpcClientState
  attempted : List Nat
  rotations : Nat
deriving DecidableEq

/-- The attempt loop of getBlockResults: at most rpcUrls.length
attempts; every caught error first rotates; connection errors and
timeouts continue; a not-found message aborts the whole call; any
other error also continues; running out of attempts is the exhausted
failure. -/
def getBlockResultsAux (behavior : Nat → AttemptOutcome) :
    Nat → RpcClientState → List Nat → Nat → RpcCallResult
  | 0, s, attempted, rotations => ⟨.exhaustedFailure, s, attempted, rotations⟩
  | remaining + 1, s, attempted, rotations =>
    let idx := selectedIndex s
    match behavior idx with
    | .ok => ⟨.success, markRpcAsWorking s, attempted ++ [idx], rotations⟩
    | .connRefused =>
        getBlockResultsAux behavior remaining (rotateClient s) (attempted ++ [idx]) (rotations + 1)
    | .timedOut =>
        getBlockResultsAux behavior remaining (rotateClient s) (attempted ++ [idx]) (rotations + 1)
    | .httpNotFound => ⟨.notFoundFailure, rotateClient s, attempted ++ [idx], rotations + 1⟩
    | .otherError =>
        getBlockResultsAux behavior remaining (rotateClient s) (attempted ++ [idx]) (rotations + 1)

def getBlockResults (behavior : Nat → AttemptOutcome) (s : RpcClientState) : RpcCallResult :=
  getBlockResultsAux behavior s.rpcUrls.length s [] 0

/-- The attempt loop of getLatestBlockHeight: identical shape, but the
status route has no not-found short-circuit — a 404 there is an
ordinary HTTP error that rotates and continues. -/
def getLatestBlockHeightAux (behavior : Nat → AttemptOutcome) :
    Nat → RpcClientState → List Nat → Nat → RpcCallResult
  | 0, s, attempted, rotations => ⟨.exhaustedFailure, s, attempted, rotations⟩
  | remaining + 1, s, attempted, rotations =>
    let idx := selectedIndex s
    match behavior idx with
    | .ok => ⟨.success, markRpcAsWorking s, attempted ++ [idx], rotations⟩
    | _ =>
        getLatestBlockHeightAux behavior remaining (rotateClient s) (attempted ++ [idx])
          (rotations + 1)

def getLatestBlockHeight (behavior : Nat → AttemptOutcome) (s : RpcClientState) : RpcCallResult :=
  getLatestBlockHeightAux behavior s.rpcUrls.length s [] 0

lemma getLatestBlockHeightAux_succ_ok {behavior : Nat → AttemptOutcome} {rem : Nat}
    {s : RpcClientState} {attempted : List Nat} {rotations : Nat}
    (h : behavior (selectedIndex s) = .ok) :
    getLatestBlockHeightAux behavior (rem + 1) s attempted rotations
      = ⟨.success, markRpcAsWorking s, attempted ++ [selectedIndex s], rotations⟩ := by
  simp only [getLatestBlockHeightAux, h]

lemma getLatestBlockHeightAux_succ_connRefused {behavior : Nat → AttemptOutcome} {rem : Nat}
    {s : RpcClientState} {attempted : List Nat} {rotations : Nat}
    (h : behavior (selectedIndex s) = .connRefused) :
    getLatestBlockHeightAux behavior (rem + 1) s attempted rotations
      = getLatestBlockHeightAux behavior rem (rotateClient s)
          (attempted ++ [selectedIndex s]) (rotations + 1) := by
  simp only [getLatestBlockHeightAux, h]

lemma getLatestBlockHeightAux_failover {urls : List String} {behavior : Nat → AttemptOutcome}
    {k : Nat} (hk : k < urls.length)
    (hfail : ∀ i, i < k → behavior i = .connRefused)
    (hok : behavior k = .ok) :
    ∀ (remaining j : Nat) (attempted : List Nat) (rotations : Nat),
      j ≤ k → k - j < remaining →
      getLatestBlockHeightAux behavior remaining ⟨urls, j, none⟩ attempted rotations
        = ⟨.success, ⟨urls, k, some k⟩, attempted ++ List.range' j (k - j + 1),
            rotations + (k - j)⟩ := by
  intro remaining
  induction remaining with
  | zero => intro j attempted rotations hj hr; omega
  | succ rem ih =>
    intro j attempted rotations hj hrem
    rcases Nat.lt_or_ge j k with hjk | hjk
    · have hb : behavior (selectedIndex ⟨urls, j, none⟩) = .connRefused :=
        hfail j hjk
      have hlt : j + 1 < urls.length := by omega
      have hrot : rotateClient ⟨urls, j, none⟩ = ⟨urls, j + 1, none⟩ := by
        simp [rotateClient, selectedIndex, Nat.mod_eq_of_lt hlt]
      rw [getLatestBlockHeightAux_succ_connRefused hb, hrot,
        ih (j + 1) _ _ (by omega) (by omega)]
      have hr : List.range' j (k - j + 1) = j :: List.range' (j + 1) (k - j) := by
        have : k - j + 1 = (k - j) + 1 := rfl
        rw [this, List.range'_succ]
      have hn : k - (j + 1) + 1 = k - j := by omega
      simp only [selectedIndex, hr, hn, List.append_assoc, List.singleton_append]
      have harith : rotations + 1 + (k - (j + 1)) = rotations + (k - j) := by omega
      rw [harith]
    · have hj' : j = k := le_antisymm hj hjk
      subst hj'
      rw [getLatestBlockHeightAux_succ_ok hok]
      simp [markRpcAsWorking, selectedIndex, Nat.sub_self, List.range']

/-! ## Claim C4 -/

/-- C4: with endpoints up to index k - 1 refusing connections and
endpoint k healthy, one RPC operation walks the endpoints in order,
performs exactly k rotations, succeeds on endpoint k and pins the
sticky pointer there; a second operation on the resulting state goes
straight to endpoint k, touching no other endpoint and rotating zero
times. -/
theorem rpc_failover_pins_sticky_endpoint
    (urls : List String) (k : Nat) (behavior : Nat → AttemptOutcome)
    (hk : k < urls.length)
    (hfail : ∀ i, i < k → behavior i = .connRefused)
    (hok : behavior k = .ok) :
    getLatestBlockHeight behavior ⟨urls, 0, none⟩
      = ⟨.success, ⟨urls, k, some k⟩, List.range (k + 1), k⟩
    ∧ getLatestBlockHeight behavior ⟨urls, k, some k⟩
      = ⟨.success, ⟨urls, k, some k⟩, [k], 0⟩ := by
  constructor
  · have h := getLatestBlockHeightAux_failover hk hfail hok urls.length 0 [] 0
      (Nat.zero_le k) (by omega)
    unfold getLatestBlockHeight
    rw [h]
    simp [List.range_eq_range']
  · unfold getLatestBlockHeight
    obtain ⟨m, hm⟩ : ∃ m, urls.length = m + 1 := ⟨urls.length - 1, by omega⟩
    rw [hm, getLatestBlockHeightAux_succ_ok hok]
    simp [markRpcAsWorking, selectedIndex]

/-- Witness for C4: three endpoints, the first refusing connections,
the second healthy. -/
theorem rpc_failover_pins_sticky_endpoint_witness :
    getLatestBlockHeight (fun i => if i < 1 then .connRefused else .ok)
        ⟨["a", "b", "c"], 0, none⟩
      = ⟨.success, ⟨["a", "b", "c"], 1, some 1⟩, [0, 1], 1⟩
    ∧ getLatestBlockHeight (fun i => if i < 1 then .connRefused else .ok)
        ⟨["a", "b", "c"], 1, some 1⟩
      = ⟨.success, ⟨["a", "b", "c"], 1, some 1⟩, [1], 0⟩ :=
  rpc_failover_pins_sticky_endpoint ["a", "b", "c"] 1 _
    (by decide)
    (fun i hi => by interval_cases i <;> rfl)
    (by decide)

/-! ## Claim C3 -/

/-- Counterexample for C3 as frozen: a client whose sticky pointer is
pinned to endpoint 0 receives a 404 from it.  The call does fail
immediately with the not-found outcome after querying only endpoint 0,
but the claim also says no rotation happens — yet rotateClient runs
once: the sticky pointer is unpinned and the round-robin pointer
advances to endpoint 1, so the selection state does not survive the
call unchanged. -/
theorem notfound_rotation_counterexample :
    getBlockResults (fun _ => .httpNotFound) ⟨["a", "b"], 0, some 0⟩
      = ⟨.notFoundFailure, ⟨["a", "b"], 1, none⟩, [0], 1⟩
    ∧ (⟨["a", "b"], 1, none⟩ : RpcClientState) ≠ ⟨["a", "b"], 0, some 0⟩ := by
  constructor
  · rfl
  · decide

/-- C3 as amended: a not-found answer from the currently selected
endpoint makes the call fail immediately with the not-found error
after exactly one attempt — no other endpoint is queried for that call
— but rotateClient still runs once before the throw, unpinning the
sticky pointer and advancing the round-robin pointer, so the next call
starts at the following endpoint. -/
theorem notfound_shortcircuits_with_rotation
    (s : RpcClientState) (behavior : Nat → AttemptOutcome)
    (hlen : 1 ≤ s.rpcUrls.length)
    (hnf : behavior (selectedIndex s) = .httpNotFound) :
    getBlockResults behavior s
      = ⟨.notFoundFailure, rotateClient s, [selectedIndex s], 1⟩ := by
  unfold getBlockResults
  obtain ⟨m, hm⟩ : ∃ m, s.rpcUrls.length = m + 1 := ⟨s.rpcUrls.length - 1, by omega⟩
  rw [hm]
  simp only [getBlockResultsAux, hnf]
  rfl

/-- Witness for the amended C3: two endpoints, sticky pinned at
endpoint 0, which answers 404. -/
theorem notfound_shortcircuits_with_rotation_witness :
    getBlockResults (fun _ => .httpNotFound) ⟨["a", "b"], 0, some 0⟩
      = ⟨.notFoundFailure, rotateClient ⟨["a", "b"], 0, some 0⟩, [selectedIndex ⟨["a", "b"], 0, some 0⟩], 1⟩ :=
  notfound_shortcircuits_with_rotation ⟨["a", "b"], 0, some 0⟩ _ (by decide) rfl

/-! ## Indexing engine (src/services/indexer.ts) with the storage
models of src/db/models.ts

Heights are JS numbers, modelled as Int.  The per-chain database slice
is the list of committed block heights (the blocks table restricted to
this chain; upserts are keyed by height so the heights are what
matters) plus the persisted cursor row of indexing_state.  The RPC
answers and the per-height fetch results of one loop iteration come
from an oracle. -/

structure DbState where
  rows : List Int
  cursor : Option Int
deriving DecidableEq

/-- Fault injection point for one pass through the two storage calls
of the commit sequence in indexBlocks. -/
inductive CommitFault
  | noFault
  | insertFails
  | cursorUpdateFails
deriving DecidableEq

/-- The commit sequence of indexBlocks: await insertBlocksBatch(blocks),
then await updateIndexingState(chainId, batchEnd).  insertBlocksBatch
wraps its row upserts in one BEGIN-COMMIT transaction of
DatabaseClient.transaction, so a failure there rolls every row back;
updateIndexingState is issued afterwards as its own standalone
statement, outside that transaction, so a failure there happens after
the row transaction already committed.  Returns the database after the
pass and whether the pass completed without throwing. -/
def commitBatchAndCursor (db : DbState) (blocks : List Int) (newCursor : Int) :
    CommitFault → DbState × Bool
  | .insertFails => (db, false)
  | .cursorUpdateFails => ({ db with rows := db.rows ++ blocks }, false)
  | .noFault => ({ rows := db.rows ++ blocks, cursor := some newCursor }, true)

/-- What the collaborators answer during one iteration of the main
loop: the head reported by getLatestBlockHeight, and which heights of
the window the per-block pipeline resolves with a record (false covers
both the not-found skip and exhausted retries — either way the height
is absent from the collected batch). -/
structure IterOutcome where
  head : Int
  fetched : Int → Bool

/-- The in-memory loop variable currentHeight plus the database. -/
structure IndexerState where
  currentHeight : Int
  db : DbState

/-- The heights of the window in ascending order — the explicit sort
at the end of processBatch makes the collected records ascending
regardless of completion order. -/
def windowHeights (batchStart batchEnd : Int) : List Int :=
  (List.range (batchEnd + 1 - batchStart).toNat).map (fun (i : Nat) => batchStart + (i : Int))

/-- One iteration of the while loop of indexBlocks, with a fault
injection point in the commit sequence: query the head; if caught up,
sleep without touching state; else compute the window, collect the
fetched heights, and when at least one block came back run the two
storage calls.  currentHeight advances to the window upper bound only
when the body ran without throwing; a thrown storage error is caught
by the loop, which sleeps and retries the same window. -/
def stepIndexerFaulty (batchSize : Int) (s : IndexerState) (o : IterOutcome)
    (fault : CommitFault) : IndexerState :=
  if s.currentHeight ≥ o.head then s
  else
    let batchEnd := min (s.currentHeight + batchSize) o.head
    let batchStart := s.currentHeight + 1
    let blocks := (windowHeights batchStart batchEnd).filter o.fetched
    if 0 < blocks.length then
      match commitBatchAndCursor s.db blocks batchEnd fault with
      | (db2, true) => { currentHeight := batchEnd, db := db2 }
      | (db2, false) => { s with db := db2 }
    else
      { s with currentHeight := batchEnd }

/-- One fault-free iteration (both storage calls succeed). -/
def stepIndexer (batchSize : Int) (s : IndexerState) (o : IterOutcome) : IndexerState :=
  stepIndexerFaulty batchSize s o .noFault

/-- Startup of indexBlocks for a chain with no committed rows yet:
currentHeight starts at the persisted cursor when one exists, else at
start_height - 1. -/
def initialIndexerState (cursor0 : Option Int) (start_height : Int) : IndexerState :=
  { currentHeight := match cursor0 with
      | some c => c
      | none => start_height - 1,
    db := { rows := [], cursor := cursor0 } }

/-- All states reached along a trace of loop iterations, first state
included. -/
def indexerStates (batchSize : Int) (init : IndexerState) (trace : List IterOutcome) :
    List IndexerState :=
  trace.scanl (stepIndexer batchSize) init

/-- The window an iteration processes: none when the engine is caught
up and only sleeps. -/
def iterationWindow (batchSize : Int) (s : IndexerState) (o : IterOutcome) :
    Option (Int × Int) :=
  if s.currentHeight ≥ o.head then none
  else some (s.currentHeight + 1, min (s.currentHeight + batchSize) o.head)

/-- The windows processed along a trace, in order. -/
def runWindows (batchSize : Int) (init : IndexerState) (trace : List IterOutcome) :
    List (Option (Int × Int)) :=
  ((indexerStates batchSize init trace).zip trace).map
    (fun p => iterationWindow batchSize p.1 p.2)

/-- The or-default of the batch size in indexBlocks (a configured zero
is falsy in JS and also falls back to the default 100). -/
def effBatchSize (cfg : ChainConfig) : Int :=
  match cfg.batch_size with
  | some b => if b = 0 then 100 else b
  | none => 100

/-! ## Claim C1 -/

/-- C1 (the code contradicts it): the batch-plus-cursor commit is not
one atomic transaction.  insertBlocksBatch commits the rows in its own
transaction and updateIndexingState runs afterwards as a separate
statement; evaluating the commit sequence at the failing input — the
cursor update throwing right after the row transaction committed —
leaves the block row persisted while the cursor did not advance, the
partial state the claim says is impossible.  The loop does retry the
same window: currentHeight stays at its pre-window value. -/
theorem batch_commit_not_atomic :
    commitBatchAndCursor ⟨[], none⟩ [1] 1 .cursorUpdateFails = (⟨[1], none⟩, false)
    ∧ stepIndexerFaulty 10 (initialIndexerState none 1) ⟨1, fun _ => true⟩ .cursorUpdateFails
        = ⟨0, ⟨[1], none⟩⟩
    ∧ ((⟨[1], none⟩ : DbState).rows ≠ (⟨[], none⟩ : DbState).rows
        ∧ (⟨[1], none⟩ : DbState).cursor = (⟨[], none⟩ : DbState).cursor) := by
  refine ⟨rfl, ?_, by decide⟩
  show stepIndexerFaulty 10 ⟨0, ⟨[], none⟩⟩ ⟨1, fun _ => true⟩ .cursorUpdateFails = ⟨0, ⟨[1], none⟩⟩
  rfl

/-! ## Claim C2 -/

/-- Pointwise order on persisted cursor values: an absent cursor
precedes everything. -/
def cursorLe : Option Int → Option Int → Prop
  | none, _ => True
  | some _, none => False
  | some a, some b => a ≤ b

/-- Invariant of the indexing loop: the cursor never exceeds the
in-memory currentHeight, and every committed row height is bounded by
the cursor. -/
def IndexerInv (s : IndexerState) : Prop :=
  (∀ c, s.db.cursor = some c → c ≤ s.currentHeight)
  ∧ (∀ h ∈ s.db.rows, ∃ c, s.db.cursor = some c ∧ h ≤ c)

lemma windowHeights_mem {a b h : Int} (hm : h ∈ windowHeights a b) :
    a ≤ h ∧ h ≤ b := by
  unfold windowHeights at hm
  obtain ⟨i, hi, rfl⟩ := List.mem_map.mp hm
  rw [List.mem_range] at hi
  omega

lemma cursorLe_refl (c : Option Int) : cursorLe c c := by
  cases c with
  | none => trivial
  | some a => exact le_refl a

lemma stepIndexer_preserves (batchSize : Int) (hb : 0 < batchSize)
    {s : IndexerState} (o : IterOutcome) (hInv : IndexerInv s) :
    IndexerInv (stepIndexer batchSize s o)
    ∧ cursorLe s.db.cursor (stepIndexer batchSize s o).db.cursor := by
  obtain ⟨hcur, hrows⟩ := hInv
  unfold stepIndexer stepIndexerFaulty
  by_cases hcaught : s.currentHeight ≥ o.head
  · rw [if_pos hcaught]
    exact ⟨⟨hcur, hrows⟩, cursorLe_refl _⟩
  · rw [if_neg hcaught]
    have hlt : s.currentHeight < o.head := lt_of_not_ge hcaught
    set batchEnd := min (s.currentHeight + batchSize) o.head with hBE
    have hadv : s.currentHeight < batchEnd := by
      simp only [hBE, lt_min_iff]
      omega
    set blocks := (windowHeights (s.currentHeight + 1) batchEnd).filter o.fetched with hBl
    have hblocks_le : ∀ h ∈ blocks, h ≤ batchEnd := by
      intro h hh
      exact (windowHeights_mem (List.mem_of_mem_filter hh)).2
    by_cases hne : 0 < blocks.length
    · rw [if_pos hne]
      show IndexerInv ⟨batchEnd, ⟨s.db.rows ++ blocks, some batchEnd⟩⟩
        ∧ cursorLe s.db.cursor (some batchEnd)
      refine ⟨⟨?_, ?_⟩, ?_⟩
      · intro c hc
        cases hc
        exact le_refl _
      · intro h hh
        refine ⟨batchEnd, rfl, ?_⟩
        rcases List.mem_append.mp hh with hin | hin
        · obtain ⟨c, hc, hhc⟩ := hrows h hin
          have := hcur c hc
          omega
        · exact hblocks_le h hin
      · cases hc : s.db.cursor with
        | none => trivial
        | some c =>
          have := hcur c hc
          show c ≤ batchEnd
          omega
    · rw [if_neg hne]
      refine ⟨⟨?_, ?_⟩, cursorLe_refl _⟩
      · intro c hc
        have := hcur c hc
        show c ≤ batchEnd
        omega
      · exact hrows

lemma indexerStates_props (batchSize : Int) (hb : 0 < batchSize) :
    ∀ (trace : List IterOutcome) (s : IndexerState), IndexerInv s →
      List.Chain' (fun a b => cursorLe a.db.cursor b.db.cursor)
        (indexerStates batchSize s trace)
      ∧ ∀ s2 ∈ indexerStates batchSize s trace, IndexerInv s2 := by
  intro trace
  induction trace with
  | nil =>
    intro s hs
    refine ⟨by simp [indexerStates], ?_⟩
    intro s2 hs2
    simp only [indexerStates, List.scanl_nil, List.mem_singleton] at hs2
    exact hs2 ▸ hs
  | cons o tr ih =>
    intro s hs
    obtain ⟨hstep, hle⟩ := stepIndexer_preserves batchSize hb o hs
    obtain ⟨hchain, hmem⟩ := ih (stepIndexer batchSize s o) hstep
    constructor
    · simp only [indexerStates, List.scanl_cons, List.singleton_append]
      rw [List.chain'_cons']
      refine ⟨?_, hchain⟩
      intro b hbmem
      have hhead : (indexerStates batchSize (stepIndexer batchSize s o) tr).head?
          = some (stepIndexer batchSize s o) := by
        unfold indexerStates
        cases tr <;> rfl
      rw [show (List.scanl (stepIndexer batchSize) (stepIndexer batchSize s o) tr).head?
          = some (stepIndexer batchSize s o) from hhead] at hbmem
      cases hbmem
      exact hle
    · intro s2 hs2
      simp only [indexerStates, List.scanl_cons, List.singleton_append, List.mem_cons] at hs2
      rcases hs2 with rfl | hs2
      · exact hs
      · exact hmem s2 hs2

/-- Counterexample for C2 as frozen: starting from no cursor with
start_height 1, one iteration sees head 2, processes window [1, 2],
and only height 1 comes back (height 2 exhausted its retries).  The
commit stores row 1 but sets the cursor to the window upper bound 2:
last_indexed_height is 2 while the highest successfully committed
block_number is 1. -/
theorem cursor_equals_highest_committed_counterexample :
    (stepIndexer 10 (initialIndexerState none 1) ⟨2, fun h => h == 1⟩).db.rows = [1]
    ∧ (stepIndexer 10 (initialIndexerState none 1) ⟨2, fun h => h == 1⟩).db.cursor = some 2
    ∧ ((2 : Int) ≠ 1) := by
  refine ⟨?_, ?_, by decide⟩ <;> rfl

/-- C2 as amended: along any fault-free run of the loop (from a fresh
chain with any persisted cursor), the persisted cursor is
non-decreasing, every committed row height is bounded by the cursor
(the cursor can exceed the highest committed height, as the
counterexample shows), and an iteration that commits sets the cursor
to exactly its window upper bound. -/
theorem cursor_monotone_and_bounds_committed
    (batchSize : Int) (hb : 0 < batchSize) (cursor0 : Option Int)
    (start_height : Int) (trace : List IterOutcome) :
    List.Chain' (fun a b => cursorLe a.db.cursor b.db.cursor)
      (indexerStates batchSize (initialIndexerState cursor0 start_height) trace)
    ∧ (∀ s ∈ indexerStates batchSize (initialIndexerState cursor0 start_height) trace,
        ∀ h ∈ s.db.rows, ∀ c, s.db.cursor = some c → h ≤ c)
    ∧ (∀ (s : IndexerState) (o : IterOutcome),
        ¬ s.currentHeight ≥ o.head →
        0 < ((windowHeights (s.currentHeight + 1)
              (min (s.currentHeight + batchSize) o.head)).filter o.fetched).length →
        (stepIndexer batchSize s o).db.cursor
          = some (min (s.currentHeight + batchSize) o.head)) := by
  have hinit : IndexerInv (initialIndexerState cursor0 start_height) := by
    constructor
    · intro c hc
      cases cursor0 with
      | none => simp [initialIndexerState] at hc
      | some c0 =>
        simp only [initialIndexerState] at hc ⊢
        cases hc
        exact le_refl _
    · intro h hh
      simp [initialIndexerState] at hh
  obtain ⟨hchain, hmem⟩ := indexerStates_props batchSize hb trace _ hinit
  refine ⟨hchain, ?_, ?_⟩
  · intro s hs h hh c hc
    obtain ⟨_, hrows⟩ := hmem s hs
    obtain ⟨c2, hc2, hhc⟩ := hrows h hh
    rw [hc] at hc2
    cases hc2
    exact hhc
  · intro s o hcaught hne
    unfold stepIndexer stepIndexerFaulty
    rw [if_neg hcaught, if_pos hne]
    rfl

/-- Witness for C2: the amended theorem applied to a two-iteration
trace with batch size 10, no prior cursor and start_height 1, plus its
committing-step clause applied to the concrete counterexample
iteration. -/
theorem cursor_monotone_and_bounds_committed_witness :
    (stepIndexer 10 (initialIndexerState none 1) ⟨2, fun h => h == 1⟩).db.cursor
      = some (min ((initialIndexerState none 1).currentHeight + 10) 2) := by
  have h := cursor_monotone_and_bounds_committed 10 (by decide) none 1 []
  exact h.2.2 (initialIndexerState none 1) ⟨2, fun h => h == 1⟩ (by decide) (by decide)

/-! ## Claim C5 -/

/-- The chain configuration of the end-to-end windowing scenario. -/
def scenarioChainConfig : ChainConfig :=
  ⟨"cosmoshub", 100, [], "uatom", some 10, none, none⟩

/-- C5: with no persisted cursor, start_height 100 and batch size 10
against a head fixed at 125 with every fetch succeeding, the engine
processes exactly the windows [100, 109], [110, 119] and [120, 125]
(the last clamped to the head) and then only sleeps; the cursor after
each window equals that window upper bound; and in general the first
window starts at cursor + 1 when a cursor exists and at start_height
otherwise. -/
theorem windowing_scenario_and_resume_rule :
    runWindows (effBatchSize scenarioChainConfig)
        (initialIndexerState none scenarioChainConfig.start_height)
        (List.replicate 4 ⟨125, fun _ => true⟩)
      = [some (100, 109), some (110, 119), some (120, 125), none]
    ∧ (indexerStates (effBatchSize scenarioChainConfig)
          (initialIndexerState none scenarioChainConfig.start_height)
          (List.replicate 4 ⟨125, fun _ => true⟩)).map (fun s => s.db.cursor)
      = [none, some 109, some 119, some 125, some 125]
    ∧ (∀ (c sh : Int), (initialIndexerState (some c) sh).currentHeight + 1 = c + 1
        ∧ (initialIndexerState none sh).currentHeight + 1 = sh) := by
  refine ⟨by decide, by decide, ?_⟩
  intro c sh
  constructor
  · rfl
  · show sh - 1 + 1 = sh
    omega

/-! ## Claim C9: per-block retry policy (CosmosFeeIndexer.processBlock) -/

/-- Outcome of one attempt of the per-block pipeline (the two parallel
RPC fetches, fee extraction and record assembly), classified the way
the catch block of processBlock does: a record was assembled; a thrown
error whose message contains the not-found text; any other thrown
error. -/
inductive FetchOutcome
  | gotRecord
  | notFoundSkip
  | failed
deriving DecidableEq

/-- How processBlock resolved for one height: with a record, with null
(the not-found skip), or by rethrowing the last error once every
attempt was spent. -/
inductive BlockOutcome
  | record
  | skipped
  | errored
deriving DecidableEq

/-- Result of processBlock together with the backoff sleeps it
performed (in order) and the number of attempts it made. -/
structure ProcessResult where
  outcome : BlockOutcome
  delays : List Int
  attempts : Nat
deriving DecidableEq

/-- The attempt loop of processBlock: on success return the record; on
a not-found error return null immediately; on any other error sleep
retryDelay times the one-based attempt number — but only when another
attempt remains — and retry; when the budget is spent, rethrow. -/
def processBlockGo (retryAttempts : Nat) (retryDelay : Int)
    (attemptOf : Nat → FetchOutcome) :
    Nat → Nat → List Int → ProcessResult
  | attempt, 0, delays => ⟨.errored, delays, attempt⟩
  | attempt, remaining + 1, delays =>
    match attemptOf attempt with
    | .gotRecord => ⟨.record, delays, attempt + 1⟩
    | .notFoundSkip => ⟨.skipped, delays, attempt + 1⟩
    | .failed =>
      if attempt < retryAttempts - 1 then
        processBlockGo retryAttempts retryDelay attemptOf (attempt + 1) remaining
          (delays ++ [retryDelay * ((attempt : Int) + 1)])
      else
        processBlockGo retryAttempts retryDelay attemptOf (attempt + 1) remaining delays

def processBlock (retryAttempts : Nat) (retryDelay : Int)
    (attemptOf : Nat → FetchOutcome) : ProcessResult :=
  processBlockGo retryAttempts retryDelay attemptOf 0 retryAttempts []

/-- The batch collector of processBatch: a height contributes a row
only when its processBlock call resolved with a record; a thrown
per-block error is caught, logged and the height excluded. -/
def collectBatch (heights : List Int) (perHeight : Int → ProcessResult) : List Int :=
  heights.filter (fun h => decide ((perHeight h).outcome = .record))

/-- The escalating backoff sleeps performed after the first n failed
attempts: retryDelay times one, then times two, and so on. -/
def scaledDelays (retryDelay : Int) (n : Nat) : List Int :=
  (List.range n).map (fun (i : Nat) => retryDelay * ((i : Int) + 1))

lemma processBlockGo_failed_step {retryAttempts : Nat} {retryDelay : Int}
    {attemptOf : Nat → FetchOutcome} {attempt rem : Nat} {delays : List Int}
    (h : attemptOf attempt = .failed) :
    processBlockGo retryAttempts retryDelay attemptOf attempt (rem + 1) delays
      = if attempt < retryAttempts - 1 then
          processBlockGo retryAttempts retryDelay attemptOf (attempt + 1) rem
            (delays ++ [retryDelay * ((attempt : Int) + 1)])
        else
          processBlockGo retryAttempts retryDelay attemptOf (attempt + 1) rem delays := by
  simp only [processBlockGo, h]

lemma processBlockGo_reaches {ra : Nat} (rd : Int) {f : Nat → FetchOutcome} {a : Nat}
    (ha : a < ra) (hfail : ∀ b, b < a → f b = .failed) :
    ∀ (n j : Nat) (d : List Int), j ≤ a → n = a - j →
      processBlockGo ra rd f j (ra - j) d
        = processBlockGo ra rd f a (ra - a)
            (d ++ (List.range' j (a - j)).map (fun (i : Nat) => rd * ((i : Int) + 1))) := by
  intro n
  induction n with
  | zero =>
    intro j d hj hn
    have hja : j = a := by omega
    subst hja
    simp
  | succ m ih =>
    intro j d hj hn
    have hja : j < a := by omega
    obtain ⟨r2, hr2⟩ : ∃ r2, ra - j = r2 + 1 := ⟨ra - j - 1, by omega⟩
    rw [hr2, processBlockGo_failed_step (hfail j hja), if_pos (by omega)]
    have hr2b : r2 = ra - (j + 1) := by omega
    rw [hr2b, ih (j + 1) _ (by omega) (by omega)]
    have hrange : List.range' j (a - j) = j :: List.range' (j + 1) (a - (j + 1)) := by
      have h1 : a - j = (a - (j + 1)) + 1 := by omega
      rw [h1, List.range'_succ]
    rw [hrange]
    simp [List.append_assoc]

/-- C9: a not-found failure (after any run of ordinary failures)
abandons the height immediately with no record and no error; ordinary
failures back off by retryDelay times the one-based attempt number
before the next attempt; a height whose every attempt fails resolves
as an error after exactly retryAttempts attempts with the full
escalating backoff sequence, and the batch collector excludes any
height that resolved as an error. -/
theorem per_block_retry_policy :
    (∀ (ra : Nat) (rd : Int) (f : Nat → FetchOutcome) (a : Nat),
        a < ra → (∀ b, b < a → f b = .failed) → f a = .notFoundSkip →
        processBlock ra rd f = ⟨.skipped, scaledDelays rd a, a + 1⟩)
    ∧ (∀ (ra : Nat) (rd : Int) (f : Nat → FetchOutcome),
        0 < ra → (∀ b, b < ra → f b = .failed) →
        processBlock ra rd f = ⟨.errored, scaledDelays rd (ra - 1), ra⟩)
    ∧ (∀ (heights : List Int) (perHeight : Int → ProcessResult) (h : Int),
        (perHeight h).outcome = .errored → h ∉ collectBatch heights perHeight) := by
  refine ⟨?_, ?_, ?_⟩
  · intro ra rd f a ha hfail hnf
    unfold processBlock
    have h0 := processBlockGo_reaches rd ha hfail (a - 0) 0 [] (Nat.zero_le a) rfl
    rw [Nat.sub_zero] at h0
    rw [h0]
    obtain ⟨r2, hr2⟩ : ∃ r2, ra - a = r2 + 1 := ⟨ra - a - 1, by omega⟩
    rw [hr2]
    simp only [processBlockGo, hnf]
    simp [scaledDelays, List.range_eq_range']
  · intro ra rd f hra hfail
    unfold processBlock
    have ha : ra - 1 < ra := by omega
    have h0 := processBlockGo_reaches rd ha (fun b hb => hfail b (by omega)) (ra - 1) 0 []
      (Nat.zero_le _) rfl
    rw [Nat.sub_zero] at h0
    rw [h0]
    have h1 : ra - (ra - 1) = 1 := by omega
    rw [h1, processBlockGo_failed_step (hfail (ra - 1) ha), if_neg (by omega)]
    have h2 : ra - 1 + 1 = ra := by omega
    rw [h2]
    show (⟨.errored, _, ra⟩ : ProcessResult) = _
    simp [scaledDelays, List.range_eq_range']
  · intro heights perHeight h herr hmem
    rw [collectBatch, List.mem_filter] at hmem
    rw [herr] at hmem
    simp at hmem

/-- Witness for C9: a retry budget of three attempts with a one second
base delay; one height fails twice and then reports not-found (skipped
after sleeps of one and two seconds), another fails all three attempts
(errored, and excluded from a batch containing it). -/
theorem per_block_retry_policy_witness :
    processBlock 3 1000 (fun b => if b < 2 then .failed else .notFoundSkip)
      = ⟨.skipped, scaledDelays 1000 2, 3⟩
    ∧ processBlock 3 1000 (fun _ => .failed)
      = ⟨.errored, scaledDelays 1000 2, 3⟩
    ∧ (5 : Int) ∉ collectBatch [4, 5, 6]
        (fun h => if h = 5 then ⟨.errored, [], 3⟩ else ⟨.record, [], 1⟩) := by
  refine ⟨?_, ?_, ?_⟩
  · exact per_block_retry_policy.1 3 1000 _ 2 (by omega)
      (by intro b hb; interval_cases b <;> rfl) rfl
  · exact per_block_retry_policy.2.1 3 1000 _ (by omega) (fun b hb => rfl)
  · exact per_block_retry_policy.2.2 [4, 5, 6] _ 5 (by rfl)

/-! ## Claim C8: range validation of the /fees route (src/api/server.ts)

Query parameters are optional strings; JS truthiness makes both an
absent parameter and the empty string falsy.  The handler is modelled
up to the database call: the ok constructors carry which range form
was accepted and its parsed bounds. -/

/-- JS truthiness of an optional query string. -/
def truthyQ : Option String → Bool
  | none => false
  | some s => !(s == "")

/-- JS parseInt with radix ten: skip leading whitespace, an optional
sign, then as many digits as present; no digits at all is NaN (none);
trailing garbage is ignored. -/
def parseIntJS (s : String) : Option Int :=
  let cs := s.data.dropWhile Char.isWhitespace
  let signAndRest : Int × List Char :=
    match cs with
    | '-' :: rest => (-1, rest)
    | '+' :: rest => (1, rest)
    | _ => (1, cs)
  let ds := signAndRest.2.takeWhile Char.isDigit
  if ds.isEmpty then none else some (signAndRest.1 * (natOfDigits ds : Int))

structure FeesQuery where
  startTime : Option String
  endTime : Option String
  startHeight : Option String
  endHeight : Option String
  chainId : Option String

inductive FeesOutcome
  | clientError (msg : String)
  | okTimeRange (chain : String) (start finish : Int)
  | okHeightRange (chain : String) (start finish : Int)
deriving DecidableEq

/-- The /fees handler of ApiServer.setupRoutes, up to the storage
read: validate that exactly one complete range form is supplied,
resolve the chain (explicit chainId when truthy, else the first
configured chain key), reject unknown chains, parse the bounds,
reject NaN and start greater than end. -/
def feesHandler (chains : List String) (q : FeesQuery) : FeesOutcome :=
  let hasTimeRange := truthyQ q.startTime && truthyQ q.endTime
  let hasBlockRange := truthyQ q.startHeight && truthyQ q.endHeight
  if !hasTimeRange && !hasBlockRange then
    .clientError "either time range or block range must be provided"
  else if hasTimeRange && hasBlockRange then
    .clientError "cannot specify both time range and block range"
  else
    let targetChainId := if truthyQ q.chainId then q.chainId else chains.head?
    match targetChainId with
    | none => .clientError "invalid chainId"
    | some t =>
      if t == "" || !(chains.contains t) then .clientError "invalid chainId"
      else if hasTimeRange then
        match parseIntJS (q.startTime.getD ""), parseIntJS (q.endTime.getD "") with
        | some s, some e =>
            if s > e then .clientError "startTime must be at most endTime"
            else .okTimeRange t s e
        | _, _ => .clientError "startTime and endTime must be valid numbers"
      else
        match parseIntJS (q.startHeight.getD ""), parseIntJS (q.endHeight.getD "") with
        | some s, some e =>
            if s > e then .clientError "startHeight must be at most endHeight"
            else .okHeightRange t s e
        | _, _ => .clientError "startHeight and endHeight must be valid numbers"

/-- The 400 responses. -/
def isClientError : FeesOutcome → Bool
  | .clientError _ => true
  | _ => false

/-- C8: a request supplying both complete ranges is rejected as a
client error; a request supplying neither complete range is rejected
as a client error; and a request whose parsed start exceeds its parsed
end — in whichever range form it supplied — is rejected as a client
error. -/
theorem fees_range_validation (chains : List String) (q : FeesQuery) :
    ((truthyQ q.startTime && truthyQ q.endTime) = true →
      (truthyQ q.startHeight && truthyQ q.endHeight) = true →
      isClientError (feesHandler chains q) = true)
    ∧ ((truthyQ q.startTime && truthyQ q.endTime) = false →
      (truthyQ q.startHeight && truthyQ q.endHeight) = false →
      isClientError (feesHandler chains q) = true)
    ∧ (∀ s e : Int,
      (truthyQ q.startTime && truthyQ q.endTime) = true →
      parseIntJS (q.startTime.getD "") = some s →
      parseIntJS (q.endTime.getD "") = some e → s > e →
      isClientError (feesHandler chains q) = true)
    ∧ (∀ s e : Int,
      (truthyQ q.startHeight && truthyQ q.endHeight) = true →
      parseIntJS (q.startHeight.getD "") = some s →
      parseIntJS (q.endHeight.getD "") = some e → s > e →
      isClientError (feesHandler chains q) = true) := by
  refine ⟨?_, ?_, ?_, ?_⟩
  · intro ht hb
    unfold feesHandler
    rw [ht, hb]
    rfl
  · intro ht hb
    unfold feesHandler
    rw [ht, hb]
    rfl
  · intro s e ht hps hpe hgt
    unfold feesHandler
    rw [ht]
    by_cases hb : (truthyQ q.startHeight && truthyQ q.endHeight) = true
    · rw [hb]
      rfl
    · rw [Bool.not_eq_true] at hb
      rw [hb]
      cases htc : (if truthyQ q.chainId = true then q.chainId else chains.head?) with
      | none => rfl
      | some t =>
        by_cases hvalid : (t == "" || !(chains.contains t)) = true
        · simp only [hvalid, if_true, isClientError]
          rfl
        · rw [Bool.not_eq_true] at hvalid
          simp only [hvalid, Bool.false_eq_true, if_false, hps, hpe, hgt, if_true,
            isClientError]
          rfl
  · intro s e hb hps hpe hgt
    unfold feesHandler
    rw [hb]
    by_cases ht : (truthyQ q.startTime && truthyQ q.endTime) = true
    · rw [ht]
      rfl
    · rw [Bool.not_eq_true] at ht
      rw [ht]
      cases htc : (if truthyQ q.chainId = true then q.chainId else chains.head?) with
      | none => rfl
      | some t =>
        by_cases hvalid : (t == "" || !(chains.contains t)) = true
        · simp only [hvalid, if_true, isClientError]
          rfl
        · rw [Bool.not_eq_true] at hvalid
          simp only [hvalid, Bool.false_eq_true, if_false, hps, hpe, hgt, if_true,
            isClientError]
          rfl

/-- Witness for C8: against a single configured chain, a request with
both complete ranges, one with neither, one with a time range of five
down to three, and one with a height range of nine down to two are all
rejected as client errors. -/
theorem fees_range_validation_witness :
    isClientError (feesHandler ["cosmoshub"]
      ⟨some "1", some "2", some "3", some "4", none⟩) = true
    ∧ isClientError (feesHandler ["cosmoshub"]
      ⟨none, none, none, some "4", none⟩) = true
    ∧ isClientError (feesHandler ["cosmoshub"]
      ⟨some "5", some "3", none, none, some "cosmoshub"⟩) = true
    ∧ isClientError (feesHandler ["cosmoshub"]
      ⟨none, none, some "9", some "2", none⟩) = true := by
  refine ⟨?_, ?_, ?_, ?_⟩
  · exact (fees_range_validation ["cosmoshub"] _).1 rfl rfl
  · exact (fees_range_validation ["cosmoshub"] _).2.1 rfl rfl
  · exact (fees_range_validation ["cosmoshub"] _).2.2.1 5 3 rfl rfl rfl (by decide)
  · exact (fees_range_validation ["cosmoshub"] _).2.2.2 9 2 rfl rfl rfl (by decide)

end CosmosFeeIndexer
